import Mathlib

/-!
Verification of dfn_lib/dfn_utils.py (Desert Fireball Network RAW2FITS
utilities).

The Python module is shallowly embedded.  Python floats are modelled as exact
rationals (every concrete number appearing in the claims is exactly
representable in binary floating point, so the idealisation is faithful at
those points), Python ints as integers, strings as Lean strings, the contents
of a text file as the list of its lines, the contents of a directory as the
list of its entry names, and raised exceptions as an error value returned
through Except.
-/

namespace DfnUtils

/-- Python exceptions raised by dfn_utils.py.  Each constructor corresponds to
one raise site (or implicit raising operation); payloads record the data that
the code interpolates into the exception message. -/
inductive PyErr where
  /-- TypeError raised at line 71 of time_factory for an unrecognised input
  type. -/
  | typeErrorTime
  /-- TypeError raised at line 88: "Can only round timestamp to n: integer
  [1,60], cannot be prime with 60". -/
  | typeErrorRounding
  /-- ZeroDivisionError implicitly raised by the expression 60.0/n at line 87
  when n == 0. -/
  | zeroDivisionError
  /-- KeyError raised at line 175: "Only output types --first-- and --list--
  are supported". -/
  | keyErrorUnsupported
  /-- KeyError raised at line 193: "Could not find key .. logged by module ..
  in log file ..", reporting the key, the module and the file path. -/
  | keyErrorNotFound (key : String) (module : String) (log_file : String)
  /-- IndexError implicitly raised at line 183 by line.split(sep)[1] when the
  split yields a single element. -/
  | indexError
  /-- FileNotFoundError raised at line 151: "Could not locate log file". -/
  | fileNotFoundError
deriving DecidableEq, Repr

/- ------------------------------------------------------------------
String primitives shared by the embedding.  Strings are processed as their
lists of characters.
------------------------------------------------------------------ -/

/-- The list pat is an initial segment of s (Python str.startswith). -/
def startsWithL : List Char → List Char → Bool
  | [], _ => true
  | _ :: _, [] => false
  | p :: ps, c :: cs => p == c && startsWithL ps cs

/-- Index of the first occurrence of pat in s, if any. -/
def findOcc (pat : List Char) : List Char → Option Nat
  | [] => if startsWithL pat [] then some 0 else none
  | c :: cs => if startsWithL pat (c :: cs) then some 0 else (findOcc pat cs).map (· + 1)

/-- Substring test: the Python operator pat in s. -/
def listSubstr (pat s : List Char) : Bool := (findOcc pat s).isSome

/-- The list pat is a final segment of s (Python str.endswith). -/
def endsWithL (pat s : List Char) : Bool := startsWithL pat.reverse s.reverse

/-- ASCII whitespace stripped by Python str.rstrip. -/
def pyIsSpace (c : Char) : Bool :=
  c == ' ' || c == '\t' || c == '\n' || c == '\r' || c == '\x0b' || c == '\x0c'

/-- Python str.rstrip on a character list. -/
def pyRstripL (cs : List Char) : List Char := (cs.reverse.dropWhile pyIsSpace).reverse

/-- The part of a path after its last slash (the base name matched by the
-name test of find). -/
def baseNameL (cs : List Char) : List Char := (cs.reverse.takeWhile (fun c => c != '/')).reverse

/-- Lexicographic comparison of character lists by code point: the order that
Python string comparison (and hence sorted on a list of paths) uses. -/
def listLe : List Char → List Char → Bool
  | [], _ => true
  | _ :: _, [] => false
  | a :: as, b :: bs => decide (a < b) || (a == b && listLe as bs)

/-- Python string order, as a relation on Lean strings. -/
def StrLe (a b : String) : Prop := listLe a.toList b.toList = true

instance : DecidableRel StrLe := fun _ _ => inferInstanceAs (Decidable (_ = true))

/- ------------------------------------------------------------------
Time model: time_factory and round_to_nearest_n_seconds.
------------------------------------------------------------------ -/

/-- Model of an astropy Time value in the UTC scale: the two-part Julian date
(jd1 + jd2), both parts kept as exact rationals.  Two values denote the same
instant iff the sums jd1 + jd2 agree. -/
structure AstroTime where
  jd1 : ℚ
  jd2 : ℚ
deriving DecidableEq, Repr

/-- Python round() (also numpy round on a float64): round half to even. -/
def pyRound (q : ℚ) : ℤ :=
  if q - ⌊q⌋ < 1/2 then ⌊q⌋
  else if 1/2 < q - ⌊q⌋ then ⌊q⌋ + 1
  else if ⌊q⌋ % 2 = 0 then ⌊q⌋ else ⌊q⌋ + 1

/-- Python int() applied to a float: truncation toward zero. -/
def ratTrunc (q : ℚ) : ℤ := if 0 ≤ q then ⌊q⌋ else -⌊-q⌋

/-- Number of decimal digits of a natural number, as the length of its
decimal representation (0 is written "0" and has one digit). -/
def digitCount (n : ℕ) : ℕ := (Nat.toDigits 10 n).length

/-- Length of the Python string str(i) for an integer i: the digit count of
its absolute value, plus one for the minus sign when i is negative.  This is
the quantity compared against 7 at line 63. -/
def pyIntStrLen (i : ℤ) : ℕ := (if i < 0 then 1 else 0) + digitCount i.natAbs

/-- Number of decimal digits of the integer part of q, sign ignored: the
digit count that the specification text refers to. -/
def integerPartDigits (q : ℚ) : ℕ := digitCount (ratTrunc q).natAbs

/-- The two numeric time formats the factory can choose. -/
inductive TimeFormat where
  | jd
  | unix
deriving DecidableEq, Repr

/-- Result of time_factory: which astropy Time construction is performed and
with which argument. -/
inductive TimeInterp where
  /-- The input was already a Time object and is returned as is (line 59). -/
  | fromTime (t : AstroTime)
  /-- Time(value, format=fmt, scale=utc) for fmt either jd or unix
  (lines 64 and 66). -/
  | fromNum (fmt : TimeFormat) (value : ℚ)
  /-- Time(s, scale=utc), format autodetected from the string (line 69). -/
  | fromStr (s : String)
deriving DecidableEq, Repr

/-- Inputs to time_factory, tagged by Python runtime type. -/
inductive PyTimeInput where
  /-- An astropy Time object. -/
  | timeObj (t : AstroTime)
  /-- A Python float, modelled by its exact rational value. -/
  | pyFloat (q : ℚ)
  /-- A Python str. -/
  | pyStr (s : String)
  /-- Any value of another type. -/
  | other
deriving DecidableEq, Repr

/-- Allowance of the re dollar anchor: the anchored pattern also matches when
a single final newline follows the match. -/
def stripOneNL (cs : List Char) : List Char :=
  match cs.reverse with
  | '\n' :: r => r.reverse
  | _ => cs

/-- Whether re.match of the anchored pattern digits a dot digits succeeds
on s (the pattern at line 61; the non-greedy markers do not change the
accepted language). -/
def pyDecMatch (s : String) : Bool :=
  let cs := stripOneNL s.toList
  let d1 := cs.takeWhile Char.isDigit
  let rest := cs.dropWhile Char.isDigit
  !d1.isEmpty &&
    match rest with
    | '.' :: r2 => !(r2.takeWhile Char.isDigit).isEmpty && (r2.dropWhile Char.isDigit).isEmpty
    | _ => false

/-- Value of a list of decimal digit characters. -/
def digitsVal (l : List Char) : ℕ := l.foldl (fun a c => a * 10 + (c.toNat - 48)) 0

/-- Decomposition of a decimal string: value of the digits before the dot,
value of the digits after the dot, and how many digits follow the dot. -/
def decParts (s : String) : ℕ × ℕ × ℕ :=
  let cs := stripOneNL s.toList
  let d1 := cs.takeWhile Char.isDigit
  let rest := cs.dropWhile Char.isDigit
  let d2 := match rest with
            | '.' :: r2 => r2.takeWhile Char.isDigit
            | _ => []
  (digitsVal d1, digitsVal d2, d2.length)

/-- Exact value of float(s) for a string that matches the decimal pattern. -/
def pyDecValue (s : String) : ℚ :=
  ((decParts s).1 : ℚ) + ((decParts s).2.1 : ℚ) / (10 : ℚ) ^ (decParts s).2.2

/-- The numeric branch of time_factory (lines 62-66): unix epoch when
str(int(f_itime)) is longer than 7 characters, Julian day otherwise. -/
def numInterp (q : ℚ) : TimeInterp :=
  if 7 < pyIntStrLen (ratTrunc q) then .fromNum .unix q else .fromNum .jd q

/-- time_factory (lines 51-73). -/
def time_factory : PyTimeInput → Except PyErr TimeInterp
  | .timeObj t => .ok (.fromTime t)
  | .pyFloat q => .ok (numInterp q)
  | .pyStr s => if pyDecMatch s then .ok (numInterp (pyDecValue s)) else .ok (.fromStr s)
  | .other => .error .typeErrorTime

/-- A Python number, tagged as int or float, for the rounding divisor n. -/
inductive PyNum where
  | int (m : ℤ)
  | float (q : ℚ)
deriving DecidableEq, Repr

/-- Validation of the rounding divisor (lines 87-88).  The source tests
not isinstance(n, int) or (n * int(60.0/n) != 60) and raises TypeError when
the test holds; evaluating 60.0/n with n == 0 raises ZeroDivisionError before
the comparison, which the first branch below reproduces.  On success the
validated integer is passed on. -/
def rounding_check : PyNum → Except PyErr ℤ
  | .float _ => .error .typeErrorRounding
  | .int m =>
    if m = 0 then .error .zeroDivisionError
    else if m * ratTrunc ((60 : ℚ) / (m : ℚ)) ≠ 60 then .error .typeErrorRounding
    else .ok m

/-- The arithmetic of round_to_nearest_n_seconds (lines 90-96) on the
normalized time t: with F = 24 * 3600 / n, the TimeDelta
td = t.jd2 * F - round(t.jd2 * F) seconds is computed and t - td * n is
returned (subtracting td * n seconds, that is td * n / 86400 days, from the
fractional part). -/
def round_time_core (t : AstroTime) (n : ℤ) : AstroTime :=
  let integer_day_factor : ℚ := (24 * 3600 : ℚ) / (n : ℚ)
  let x : ℚ := t.jd2 * integer_day_factor
  let td : ℚ := x - (pyRound x : ℚ)
  { jd1 := t.jd1, jd2 := t.jd2 - td * (n : ℚ) / 86400 }

/-- round_to_nearest_n_seconds (lines 77-96), for an input that is already an
astropy Time object.  The source first validates n, then normalizes the input
with time_factory; on a Time object time_factory returns its input unchanged
(line 59), so the normalized time is the input itself. -/
def round_to_nearest_n_seconds (itime : AstroTime) (n : PyNum) : Except PyErr AstroTime :=
  (rounding_check n).map (fun m => round_time_core itime m)

/- ------------------------------------------------------------------
Log search: search_dfn_operation_log.
------------------------------------------------------------------ -/

/-- The candidate test of line 182: the line contains both the key and the
module as substrings (Python in). -/
def isCandidate (key module line : String) : Bool :=
  listSubstr key.toList line.toList && listSubstr module.toList line.toList

/-- The separator module + ", " + key + ", " of line 183. -/
def sepOf (key module : String) : String := module ++ ", " ++ key ++ ", "

/-- line.split(sep)[1].rstrip() of line 183: the text between the first and
the second occurrence of sep (to the end of the line when sep occurs only
once), with trailing whitespace stripped; none models the IndexError raised
when sep does not occur at all, so that the split yields a single element. -/
def extractValue (sep line : String) : Option String :=
  (findOcc sep.toList line.toList).map (fun i =>
    let rest := line.toList.drop (i + sep.toList.length)
    let piece := (findOcc sep.toList rest).elim rest (fun j => rest.take j)
    String.mk (pyRstripL piece))

/-- The loop over the lines of the log file (lines 180-189): collects the
parsed value of every candidate line, stopping at the first one when
firstOnly is set; an extraction failure aborts with IndexError. -/
def scanLog (key module : String) (firstOnly : Bool) : List String → Except PyErr (List String)
  | [] => .ok []
  | line :: rest =>
    if isCandidate key module line then
      (extractValue (sepOf key module) line).elim (.error .indexError) (fun v =>
        if firstOnly then .ok [v]
        else (scanLog key module firstOnly rest).map (fun vs => v :: vs))
    else scanLog key module firstOnly rest

/-- Result of search_dfn_operation_log: a single value in first mode, the
ordered list of all values in list mode. -/
inductive SearchRes where
  | one (v : String)
  | many (vs : List String)
deriving DecidableEq, Repr

/-- search_dfn_operation_log (lines 156-193).  The file is given by its path
(used only in the error payload) and by the list of its lines.  The found
flag of the source is true exactly when the scan collected at least one
value, and the bind propagates the IndexError of a failed extraction exactly
as the uncaught Python exception would propagate. -/
def search_dfn_operation_log (log_file : String) (lines : List String)
    (key : String) (module : String) (results : String) : Except PyErr SearchRes :=
  if results ∉ (["first", "list"] : List String) then .error .keyErrorUnsupported
  else
    (scanLog key module (results == "first") lines).bind (fun vs =>
      match vs with
      | [] => .error (.keyErrorNotFound key module log_file)
      | v :: vs2 =>
        if results == "first" then .ok (.one v) else .ok (.many (v :: vs2)))

/-- Modelled from the spec: on a candidate line, the value is the text
immediately following the first occurrence of the separator, up to the end of
the line, with trailing whitespace stripped (empty when the separator does
not occur, a case the specification does not reach). -/
def specValueD (sep line : String) : String :=
  (findOcc sep.toList line.toList).elim ""
    (fun i => String.mk (pyRstripL (line.toList.drop (i + sep.toList.length))))

/-- sep occurs in line exactly once, in the sense that Python
line.split(sep) yields exactly two pieces. -/
def sepOnce (sep line : String) : Bool :=
  (findOcc sep.toList line.toList).elim false
    (fun i => !(listSubstr sep.toList (line.toList.drop (i + sep.toList.length))))

/- ------------------------------------------------------------------
File discovery: resolve_glob, getDfnstationConfigFile, find_log_file.
------------------------------------------------------------------ -/

/-- The standard configuration file name (line 32). -/
def stdcfgfilename : String := "dfnstation.cfg"

/-- os.path.join of a directory and an entry name (the name is assumed not to
be an absolute path). -/
def pathJoin (directory f : String) : String :=
  if directory = "" then f
  else if endsWithL ['/'] directory.toList then directory ++ f
  else directory ++ "/" ++ f

/-- fnmatch of the glob pattern pfx * mid *.ext against a file name, all
pattern pieces taken as literal text, together with the glob rule that a
pattern starting with a star does not match names starting with a dot.  The
name matches when it starts with pfx and the remainder decomposes as
anything, mid, anything, a dot, ext. -/
def globMatch (pfx mid ext name : String) : Bool :=
  let n := name.toList
  (if pfx.toList.isEmpty then !(startsWithL ['.'] n) else true)
  && startsWithL pfx.toList n
  && (let rest := n.drop pfx.toList.length
      let tl := '.' :: ext.toList
      endsWithL tl rest && listSubstr mid.toList (rest.take (rest.length - tl.length)))

/-- glob.glob(os.path.join(directory, pfx + "*" + mid + "*." + ext)), the
directory contents being given by listing (entry names, in unspecified OS
order): the joined paths of the matching names. -/
def glob_glob (directory : String) (listing : List String) (pfx mid ext : String) : List String :=
  (listing.filter (fun nm => globMatch pfx mid ext nm)).map (fun nm => pathJoin directory nm)

/-- Python sorted() on a list of strings. -/
def sortStrings (l : List String) : List String := List.insertionSort StrLe l

/-- The extension argument of resolve_glob: a single extension string or a
list of extensions (the isinstance(extension, str) dispatch at line 105). -/
inductive ExtArg where
  | single (e : String)
  | listOf (es : List String)
deriving DecidableEq, Repr

/-- resolve_glob (lines 98-109). -/
def resolve_glob (extension : ExtArg) (directory : String) (listing : List String)
    (pfx sfx : String) : List String :=
  match extension with
  | .single e => sortStrings (glob_glob directory listing pfx sfx e)
  | .listOf es => sortStrings (List.flatten (es.map (fun e => glob_glob directory listing pfx sfx e)))

/-- Result of getDfnstationConfigFile: the returned path and whether the
several-config-files warning was emitted. -/
structure CfgResult where
  result : String
  warned : Bool
deriving DecidableEq, Repr

/-- getDfnstationConfigFile (lines 112-121). -/
def getDfnstationConfigFile (directory : String) (listing : List String) : CfgResult :=
  let possibleFiles := resolve_glob (.single "cfg") directory listing "" "dfnstation"
  { warned := decide (1 < possibleFiles.length)
  , result :=
      if pathJoin directory stdcfgfilename ∈ possibleFiles then stdcfgfilename
      else
        match possibleFiles with
        | f :: _ => f
        | [] => "" }

/-- Modelled external interface: the find subprocess of lines 143-148 prints,
in filesystem search order, the files of the tree rooted at basedir whose
base name ends with the given pattern suffix (the -type f -name star-pattern
test).  The tree is passed in as the list of all file paths under basedir, in
that search order. -/
def find_output (tree : List String) (pat_sfx : String) : List String :=
  tree.filter (fun p => endsWithL pat_sfx.toList (baseNameL p.toList))

/-- find_log_file (lines 125-153).  The output of the subprocess is decoded
and split on newlines (yielding a trailing empty string), filtered to lines
that contain the extended suffix and start with basedir, and the first
remaining entry is returned; FileNotFoundError is raised when none remains.
Paths are assumed newline-free. -/
def find_log_file (basedir : String) (tree : List String)
    (sfx : String) (ext : String) (system_number : String) : Except PyErr String :=
  let extended_suffix := system_number ++ sfx ++ "." ++ ext
  let output_lines := find_output tree extended_suffix ++ [""]
  let list_results := output_lines.filter
      (fun e => listSubstr extended_suffix.toList e.toList
                 && startsWithL basedir.toList e.toList)
  match list_results with
  | [] => .error .fileNotFoundError
  | r :: _ => .ok r

/- ------------------------------------------------------------------
Helper lemmas about the numeric primitives.
------------------------------------------------------------------ -/

lemma ratTrunc_nonneg_eq (q : ℚ) (k : ℤ) (h0 : 0 ≤ q) (h1 : (k : ℚ) ≤ q)
    (h2 : q < (k : ℚ) + 1) : ratTrunc q = k := by
  unfold ratTrunc
  rw [if_pos h0]
  exact Int.floor_eq_iff.mpr ⟨h1, by exact_mod_cast h2⟩

lemma ratTrunc_neg_eq (q : ℚ) (k : ℤ) (h0 : ¬ 0 ≤ q) (h1 : (k : ℚ) ≤ -q)
    (h2 : -q < (k : ℚ) + 1) : ratTrunc q = -k := by
  unfold ratTrunc
  rw [if_neg h0]
  have : ⌊-q⌋ = k := Int.floor_eq_iff.mpr ⟨h1, by exact_mod_cast h2⟩
  rw [this]

lemma ratTrunc_intCast (k : ℤ) : ratTrunc (k : ℚ) = k := by
  unfold ratTrunc
  split
  · exact Int.floor_intCast k
  · rw [← Int.cast_neg, Int.floor_intCast]
    ring

lemma pyRound_intCast (k : ℤ) : pyRound (k : ℚ) = k := by
  unfold pyRound
  rw [Int.floor_intCast, sub_self]
  norm_num

/-- For a nonzero integer n, the source test n * int(60.0/n) == 60 holds
exactly when n divides 60. -/
lemma check_eq_dvd (m : ℤ) (hm : m ≠ 0) :
    m * ratTrunc ((60 : ℚ) / (m : ℚ)) = 60 ↔ m ∣ 60 := by
  constructor
  · intro h
    exact ⟨ratTrunc ((60 : ℚ) / (m : ℚ)), h.symm⟩
  · rintro ⟨c, hc⟩
    have hmq : (m : ℚ) ≠ 0 := Int.cast_ne_zero.mpr hm
    have hq : (60 : ℚ) / (m : ℚ) = (c : ℚ) := by
      have h60 : (60 : ℚ) = (m : ℚ) * (c : ℚ) := by exact_mod_cast hc
      rw [h60, mul_div_assoc]
      field_simp
    rw [hq, ratTrunc_intCast]
    exact hc.symm

/-- Unfolding of time_factory on a string input. -/
lemma time_factory_pyStr (s : String) :
    time_factory (.pyStr s) =
      if pyDecMatch s then .ok (numInterp (pyDecValue s)) else .ok (.fromStr s) := rfl

/-- Case normal form of rounding_check on an integer argument. -/
lemma rounding_check_int (m : ℤ) :
    rounding_check (.int m) =
      if m = 0 then .error .zeroDivisionError
      else if m ∣ 60 then .ok m else .error .typeErrorRounding := by
  show (if m = 0 then (.error .zeroDivisionError : Except PyErr ℤ)
        else if m * ratTrunc ((60 : ℚ) / (m : ℚ)) ≠ 60 then .error .typeErrorRounding
        else .ok m) = _
  by_cases h0 : m = 0
  · simp [h0]
  · rw [if_neg h0, if_neg h0]
    by_cases hd : m ∣ 60
    · rw [if_pos hd, if_neg (not_ne_iff.mpr ((check_eq_dvd m h0).mpr hd))]
    · rw [if_neg hd, if_pos (fun he => hd ((check_eq_dvd m h0).mp he))]

/- ------------------------------------------------------------------
Claims C4, C2, C1.
------------------------------------------------------------------ -/

/-- Claim C4: time_factory is the identity on already-canonical input: for
every canonical time value t, the input object itself is returned, with no
conversion. -/
theorem claim_C4_identity (t : AstroTime) :
    time_factory (.timeObj t) = .ok (.fromTime t) := rfl

/-- Claim C4 witness: the identity theorem applied at a concrete time. -/
theorem claim_C4_witness :
    time_factory (.timeObj ⟨2457754, 0⟩) = .ok (.fromTime ⟨2457754, 0⟩) :=
  claim_C4_identity ⟨2457754, 0⟩

/-- Claim C2 (amended): round_to_nearest_n_seconds accepts an integer n
exactly when n divides 60, raises the InvalidRoundingFactor TypeError exactly
when n is not an integer or is a nonzero integer that does not evenly divide
60, and raises ZeroDivisionError (not the InvalidRoundingFactor TypeError)
exactly when n = 0; in particular n = 7 is rejected with the TypeError and
n = 30 is accepted. -/
theorem claim_C2_rounding_factor (t : AstroTime) (m : ℤ) (q : ℚ) :
    (round_to_nearest_n_seconds t (.int m) = .ok (round_time_core t m) ↔ m ∣ 60)
  ∧ (round_to_nearest_n_seconds t (.int m) = .error .typeErrorRounding
       ↔ (m ≠ 0 ∧ ¬ m ∣ 60))
  ∧ (round_to_nearest_n_seconds t (.int m) = .error .zeroDivisionError ↔ m = 0)
  ∧ round_to_nearest_n_seconds t (.float q) = .error .typeErrorRounding
  ∧ round_to_nearest_n_seconds t (.int 7) = .error .typeErrorRounding
  ∧ round_to_nearest_n_seconds t (.int 30) = .ok (round_time_core t 30) := by
  have hmain : ∀ k : ℤ,
      round_to_nearest_n_seconds t (.int k) =
        if k = 0 then .error .zeroDivisionError
        else if k ∣ 60 then .ok (round_time_core t k) else .error .typeErrorRounding := by
    intro k
    unfold round_to_nearest_n_seconds
    rw [rounding_check_int]
    by_cases h0 : k = 0
    · simp [h0, Except.map]
    · by_cases hd : k ∣ 60 <;> simp [h0, hd, Except.map]
  refine ⟨?_, ?_, ?_, rfl, ?_, ?_⟩
  · rw [hmain]
    by_cases h0 : m = 0
    · subst h0
      simp [zero_dvd_iff]
    · by_cases hd : m ∣ 60 <;> simp [h0, hd]
  · rw [hmain]
    by_cases h0 : m = 0
    · subst h0
      simp [zero_dvd_iff]
    · by_cases hd : m ∣ 60 <;> simp [h0, hd]
  · rw [hmain]
    by_cases h0 : m = 0
    · simp [h0]
    · by_cases hd : m ∣ 60 <;> simp [h0, hd]
  · rw [hmain]
    norm_num
  · rw [hmain]
    norm_num

/-- Claim C2 witness: the amended theorem applied at the accepted divisor
n = 30 on a concrete time. -/
theorem claim_C2_witness :
    round_to_nearest_n_seconds ⟨0, 0⟩ (.int 30) = .ok (round_time_core ⟨0, 0⟩ 30) :=
  (claim_C2_rounding_factor ⟨0, 0⟩ 30 0).2.2.2.2.2

/-- Claim C2 counterexample: n = 0 is an integer that does not evenly divide
60, yet the code raises ZeroDivisionError (from evaluating 60.0/0), not the
InvalidRoundingFactor TypeError that the claim requires for every such n. -/
theorem claim_C2_counterexample :
    round_to_nearest_n_seconds ⟨0, 0⟩ (.int 0) = .error .zeroDivisionError
  ∧ ¬ ((0 : ℤ) ∣ 60)
  ∧ PyErr.zeroDivisionError ≠ PyErr.typeErrorRounding :=
  ⟨rfl, by decide, by decide⟩

/-- Claim C1 (amended): for every nonnegative numeric input (every string
matching the decimal pattern is nonnegative), the value is interpreted as
Unix epoch seconds exactly when its integer part has more than 7 digits and
as a Julian day otherwise; for negative floats the code instead compares the
length of str(int(x)), which also counts the minus sign.  Concretely,
"2457754.5" is interpreted as Julian day and "1498800000.0" as Unix epoch. -/
theorem claim_C1_digit_heuristic (q : ℚ) (h : 0 ≤ q) :
    (time_factory (.pyFloat q) = .ok (.fromNum .unix q) ↔ 7 < integerPartDigits q)
  ∧ (time_factory (.pyFloat q) = .ok (.fromNum .jd q) ↔ integerPartDigits q ≤ 7)
  ∧ time_factory (.pyStr "2457754.5") = .ok (.fromNum .jd (2457754.5 : ℚ))
  ∧ time_factory (.pyStr "1498800000.0") = .ok (.fromNum .unix (1498800000 : ℚ)) := by
  have htr : ratTrunc q = ⌊q⌋ := by
    unfold ratTrunc
    rw [if_pos h]
  have hnn : ¬ (ratTrunc q < 0) := by
    rw [htr]
    exact not_lt.mpr (Int.floor_nonneg.mpr h)
  have hlen : pyIntStrLen (ratTrunc q) = integerPartDigits q := by
    unfold pyIntStrLen integerPartDigits
    rw [if_neg hnn, Nat.zero_add]
  refine ⟨?_, ?_, ?_, ?_⟩
  · show Except.ok (numInterp q) = _ ↔ _
    unfold numInterp
    rw [hlen]
    by_cases hd : 7 < integerPartDigits q <;> simp [hd] <;> omega
  · show Except.ok (numInterp q) = _ ↔ _
    unfold numInterp
    rw [hlen]
    by_cases hd : 7 < integerPartDigits q <;> simp [hd] <;> omega
  · have hm : pyDecMatch "2457754.5" = true := by decide
    have hp : decParts "2457754.5" = (2457754, 5, 1) := by decide
    have hv : pyDecValue "2457754.5" = (2457754.5 : ℚ) := by
      unfold pyDecValue
      rw [hp]
      norm_num
    have htr2 : ratTrunc (2457754.5 : ℚ) = 2457754 :=
      ratTrunc_nonneg_eq _ _ (by norm_num) (by norm_num) (by norm_num)
    have hl7 : pyIntStrLen (2457754 : ℤ) = 7 := by decide
    rw [time_factory_pyStr, hm, if_pos rfl, hv]
    unfold numInterp
    rw [htr2, hl7, if_neg (by norm_num)]
  · have hm : pyDecMatch "1498800000.0" = true := by decide
    have hp : decParts "1498800000.0" = (1498800000, 0, 1) := by decide
    have hv : pyDecValue "1498800000.0" = (1498800000 : ℚ) := by
      unfold pyDecValue
      rw [hp]
      norm_num
    have htr2 : ratTrunc (1498800000 : ℚ) = 1498800000 :=
      ratTrunc_nonneg_eq _ _ (by norm_num) (by norm_num) (by norm_num)
    have hl10 : pyIntStrLen (1498800000 : ℤ) = 10 := by decide
    rw [time_factory_pyStr, hm, if_pos rfl, hv]
    unfold numInterp
    rw [htr2, hl10, if_pos (by norm_num)]

/-- Claim C1 witness: the amended theorem applied at the concrete nonnegative
input 2457754.5, whose integer part has 7 digits, giving the Julian-day
interpretation. -/
theorem claim_C1_witness :
    time_factory (.pyFloat (2457754.5 : ℚ)) = .ok (.fromNum .jd (2457754.5 : ℚ)) := by
  have hd : integerPartDigits (2457754.5 : ℚ) ≤ 7 := by
    unfold integerPartDigits
    rw [ratTrunc_nonneg_eq (2457754.5 : ℚ) 2457754 (by norm_num) (by norm_num) (by norm_num)]
    decide
  exact (claim_C1_digit_heuristic (2457754.5 : ℚ) (by norm_num)).2.1.mpr hd

/-- Claim C1 counterexample: the float -1234567.5 has a 7-digit integer part,
so the claim requires the Julian-day interpretation, but the code compares
len(str(int(x))) = len("-1234567") = 8 > 7 and interprets it as Unix epoch. -/
theorem claim_C1_counterexample :
    integerPartDigits (-1234567.5 : ℚ) ≤ 7
  ∧ time_factory (.pyFloat (-1234567.5 : ℚ)) = .ok (.fromNum .unix (-1234567.5 : ℚ))
  ∧ TimeInterp.fromNum .unix (-1234567.5 : ℚ) ≠ TimeInterp.fromNum .jd (-1234567.5 : ℚ) := by
  have htr : ratTrunc (-1234567.5 : ℚ) = -1234567 :=
    ratTrunc_neg_eq _ 1234567 (by norm_num) (by norm_num) (by norm_num)
  refine ⟨?_, ?_, ?_⟩
  · unfold integerPartDigits
    rw [htr]
    decide
  · show Except.ok (numInterp (-1234567.5 : ℚ)) = _
    unfold numInterp
    have h8 : pyIntStrLen (-1234567 : ℤ) = 8 := by decide
    rw [htr, h8, if_pos (by norm_num)]
  · intro hcon
    injection hcon with h1 h2
    cases h1

/- ------------------------------------------------------------------
Claim C3.
------------------------------------------------------------------ -/

/-- Claim C3: rounding is idempotent on the grid: for every canonical time t
whose fractional part lies exactly on the n-second grid (its sub-day part
t.jd2, in seconds, is an integer multiple of n) and every divisor n of 60,
round_to_nearest_n_seconds returns a time equal to t (here: the very same
two-part value). -/
theorem claim_C3_idempotent (t : AstroTime) (n : ℤ) (hn : n ∣ 60)
    (hgrid : ∃ k : ℤ, t.jd2 * 86400 = (k : ℚ) * (n : ℚ)) :
    round_to_nearest_n_seconds t (.int n) = .ok t := by
  have hn0 : n ≠ 0 := by
    rintro rfl
    have h60 : (60 : ℤ) = 0 := zero_dvd_iff.mp hn
    norm_num at h60
  have hnq : (n : ℚ) ≠ 0 := Int.cast_ne_zero.mpr hn0
  obtain ⟨k, hk⟩ := hgrid
  have hx : t.jd2 * ((24 * 3600 : ℚ) / (n : ℚ)) = (k : ℚ) := by
    have h86 : (24 * 3600 : ℚ) = 86400 := by norm_num
    rw [h86, mul_div_assoc']
    rw [div_eq_iff hnq]
    exact hk
  have hcore : round_time_core t n = t := by
    show AstroTime.mk t.jd1
        (t.jd2 - (t.jd2 * ((24 * 3600 : ℚ) / (n : ℚ))
                   - (pyRound (t.jd2 * ((24 * 3600 : ℚ) / (n : ℚ))) : ℚ)) * (n : ℚ) / 86400)
      = t
    rw [hx, pyRound_intCast, sub_self, zero_mul, zero_div, sub_zero]
  unfold round_to_nearest_n_seconds
  rw [rounding_check_int, if_neg hn0, if_pos hn, Except.map, hcore]

/-- Claim C3 witness: the time with jd1 = 2457754 and jd2 = 1/2 lies on the
30-second grid (1/2 day = 43200 s = 1440 * 30 s) and is returned unchanged. -/
theorem claim_C3_witness :
    round_to_nearest_n_seconds ⟨2457754, 1/2⟩ (.int 30) = .ok ⟨2457754, 1/2⟩ :=
  claim_C3_idempotent ⟨2457754, 1/2⟩ 30 ⟨2, by norm_num⟩ ⟨1440, by norm_num⟩

/- ------------------------------------------------------------------
Helper lemmas about the log scan.
------------------------------------------------------------------ -/

/-- Step equation of the scan loop. -/
lemma scanLog_cons (key module : String) (b : Bool) (line : String) (rest : List String) :
    scanLog key module b (line :: rest) =
      if isCandidate key module line then
        (extractValue (sepOf key module) line).elim (.error .indexError) (fun v =>
          if b then .ok [v]
          else (scanLog key module b rest).map (fun vs => v :: vs))
      else scanLog key module b rest := rfl

/-- When the separator occurs exactly once, the extracted value of line 183
is exactly the text following it up to the end of the line, stripped. -/
lemma extractValue_of_sepOnce (sep line : String) (h : sepOnce sep line = true) :
    extractValue sep line = some (specValueD sep line) := by
  unfold sepOnce at h
  cases hf : findOcc sep.toList line.toList with
  | none =>
    rw [hf] at h
    simp at h
  | some i =>
    rw [hf] at h
    simp only [Option.elim_some, Bool.not_eq_eq_eq_not, Bool.not_true] at h
    have hnone : findOcc sep.toList (line.toList.drop (i + sep.toList.length)) = none := by
      unfold listSubstr at h
      cases hg : findOcc sep.toList (line.toList.drop (i + sep.toList.length)) with
      | none => rfl
      | some j => rw [hg] at h; simp at h
    unfold extractValue specValueD
    rw [hf]
    simp only [Option.map_some', Option.elim_some]
    rw [hnone, Option.elim_none]

/-- First-mode normal form of the scan loop: the result is determined by the
first candidate line. -/
lemma scanLog_first (key module : String) :
    ∀ lines : List String,
      scanLog key module true lines =
        ((lines.filter (fun l => isCandidate key module l)).head?.elim (.ok [])
          (fun c => (extractValue (sepOf key module) c).elim (.error .indexError)
            (fun v => .ok [v])))
  | [] => rfl
  | line :: rest => by
    rw [scanLog_cons]
    cases hc : isCandidate key module line with
    | true =>
      rw [if_pos rfl, List.filter_cons_of_pos hc, List.head?_cons, Option.elim_some]
      cases hev : extractValue (sepOf key module) line <;> simp
    | false =>
      rw [if_neg (by simp), List.filter_cons_of_neg (by simp [hc])]
      exact scanLog_first key module rest

/-- List-mode normal form of the scan loop, assuming every candidate line
extracts cleanly. -/
lemma scanLog_list (key module : String) :
    ∀ lines : List String,
      (∀ c ∈ lines.filter (fun l => isCandidate key module l),
          extractValue (sepOf key module) c = some (specValueD (sepOf key module) c)) →
      scanLog key module false lines =
        .ok ((lines.filter (fun l => isCandidate key module l)).map
              (fun c => specValueD (sepOf key module) c))
  | [], _ => rfl
  | line :: rest, hall => by
    rw [scanLog_cons]
    cases hc : isCandidate key module line with
    | true =>
      have hmem : line ∈ (line :: rest).filter (fun l => isCandidate key module l) := by
        rw [List.filter_cons_of_pos hc]
        exact List.mem_cons_self line _
      have hrest : ∀ c ∈ rest.filter (fun l => isCandidate key module l),
          extractValue (sepOf key module) c = some (specValueD (sepOf key module) c) := by
        intro c hcmem
        refine hall c ?_
        rw [List.filter_cons_of_pos hc]
        exact List.mem_cons_of_mem line hcmem
      rw [if_pos rfl, hall line hmem, Option.elim_some, if_neg (by simp),
        scanLog_list key module rest hrest, List.filter_cons_of_pos hc, List.map_cons]
      rfl
    | false =>
      have hrest : ∀ c ∈ rest.filter (fun l => isCandidate key module l),
          extractValue (sepOf key module) c = some (specValueD (sepOf key module) c) := by
        intro c hcmem
        refine hall c ?_
        rw [List.filter_cons_of_neg (by simp [hc])]
        exact hcmem
      rw [if_neg (by simp), List.filter_cons_of_neg (by simp [hc])]
      exact scanLog_list key module rest hrest

/-- The scan returns an empty list exactly when no line is a candidate. -/
lemma scanLog_ok_nil_iff (key module : String) (b : Bool) :
    ∀ lines : List String,
      (scanLog key module b lines = .ok [] ↔
        ∀ l ∈ lines, isCandidate key module l = false)
  | [] => by simp [scanLog]
  | line :: rest => by
    rw [scanLog_cons]
    cases hc : isCandidate key module line with
    | true =>
      rw [if_pos rfl]
      constructor
      · intro h
        exfalso
        cases hev : extractValue (sepOf key module) line with
        | none => rw [hev, Option.elim_none] at h; cases h
        | some v =>
          rw [hev, Option.elim_some] at h
          cases b with
          | true => simp at h
          | false =>
            rw [if_neg (by simp)] at h
            cases hs : scanLog key module false rest with
            | error e => rw [hs] at h; cases h
            | ok vs => rw [hs] at h; simp [Except.map] at h
      · intro h
        have := h line (List.mem_cons_self line rest)
        rw [hc] at this
        cases this
    | false =>
      rw [if_neg (by simp), scanLog_ok_nil_iff key module b rest]
      constructor
      · intro h l hl
        rcases List.mem_cons.mp hl with hfst | hrest
        · subst hfst; exact hc
        · exact h l hrest
      · intro h l hl
        exact h l (List.mem_cons_of_mem line hl)

/-- The only error the scan loop itself can raise is the IndexError of an
extraction failure. -/
lemma scanLog_error (key module : String) (b : Bool) :
    ∀ lines : List String, ∀ e : PyErr,
      scanLog key module b lines = .error e → e = .indexError
  | [], e => by intro h; cases h
  | line :: rest, e => by
    intro h
    rw [scanLog_cons] at h
    by_cases hc : isCandidate key module line = true
    · rw [if_pos hc] at h
      cases hev : extractValue (sepOf key module) line with
      | none =>
        rw [hev, Option.elim_none] at h
        cases h
        rfl
      | some v =>
        rw [hev, Option.elim_some] at h
        cases b with
        | true => simp at h
        | false =>
          rw [if_neg (by simp)] at h
          cases hs : scanLog key module false rest with
          | error e2 =>
            rw [hs] at h
            simp [Except.map] at h
            subst h
            exact scanLog_error key module false rest e2 hs
          | ok vs => rw [hs] at h; simp [Except.map] at h
    · rw [if_neg hc] at h
      exact scanLog_error key module b rest e h

/- ------------------------------------------------------------------
Claims C5, C6, C7.
------------------------------------------------------------------ -/

/-- Claim C5 (amended): on candidate lines in which the separator
module-comma-key-comma occurs exactly once, the extracted value is the text
immediately following the separator up to the end of the line, with trailing
whitespace stripped (when the separator occurs again, Python split stops the
value at its second occurrence instead); first mode stops at the first
candidate line and returns its value, list mode returns all extracted values
in file order; concretely, searching key leostick_version with module
interval_control_lin in first mode on the documented log line returns
"mem error fixed, built: 10:56:18". -/
theorem claim_C5_extraction (path key module : String) (lines : List String) :
    (∀ c cs, lines.filter (fun l => isCandidate key module l) = c :: cs →
       sepOnce (sepOf key module) c = true →
       search_dfn_operation_log path lines key module "first"
         = .ok (.one (specValueD (sepOf key module) c)))
  ∧ (lines.filter (fun l => isCandidate key module l) ≠ [] →
       (∀ c ∈ lines.filter (fun l => isCandidate key module l),
          sepOnce (sepOf key module) c = true) →
       search_dfn_operation_log path lines key module "list"
         = .ok (.many ((lines.filter (fun l => isCandidate key module l)).map
              (fun c => specValueD (sepOf key module) c))))
  ∧ search_dfn_operation_log path
      ["2017-06-30 16:13:29,102, INFO, interval_control_lin, leostick_version, mem error fixed, built: 10:56:18"]
      "leostick_version" "interval_control_lin" "first"
      = .ok (.one "mem error fixed, built: 10:56:18") := by
  refine ⟨?_, ?_, ?_⟩
  · intro c cs hfil honce
    unfold search_dfn_operation_log
    rw [if_neg (by decide), show (("first" == "first") : Bool) = true from rfl,
      scanLog_first, hfil, List.head?_cons, Option.elim_some,
      extractValue_of_sepOnce _ _ honce, Option.elim_some]
    rfl
  · intro hne hall
    have hex : ∀ c ∈ lines.filter (fun l => isCandidate key module l),
        extractValue (sepOf key module) c = some (specValueD (sepOf key module) c) :=
      fun c hc => extractValue_of_sepOnce _ _ (hall c hc)
    unfold search_dfn_operation_log
    rw [if_neg (by decide), show (("list" == "first") : Bool) = false from rfl,
      scanLog_list key module lines hex]
    obtain ⟨c, cs, hfil⟩ := List.exists_cons_of_ne_nil hne
    rw [hfil, List.map_cons]
    rfl
  · rfl

/-- Claim C5 witness: the amended theorem applied to a one-line log whose
candidate line contains the separator exactly once. -/
theorem claim_C5_witness :
    search_dfn_operation_log "ops.log" ["m, k, hello"] "k" "m" "first"
      = .ok (.one "hello") := by
  have h := (claim_C5_extraction "ops.log" "k" "m" ["m, k, hello"]).1
    "m, k, hello" [] (by rfl) (by decide)
  exact h

/-- Claim C5 counterexample: the log line "m, k, a m, k, b" is a candidate
for key "k" and module "m" and contains the separator "m, k, ", so the claim
requires the value "a m, k, b" (everything after the first separator, up to
the end of the line); the code instead returns "a", because split cuts the
value at the second occurrence of the separator. -/
theorem claim_C5_counterexample :
    isCandidate "k" "m" "m, k, a m, k, b" = true
  ∧ listSubstr (sepOf "k" "m").toList "m, k, a m, k, b".toList = true
  ∧ search_dfn_operation_log "ops.log" ["m, k, a m, k, b"] "k" "m" "first"
      = .ok (.one "a")
  ∧ specValueD (sepOf "k" "m") "m, k, a m, k, b" = "a m, k, b"
  ∧ ("a" : String) ≠ "a m, k, b" :=
  ⟨by decide, by decide, by rfl, by rfl, by decide⟩

/-- Claim C6: search_dfn_operation_log fails with the UnsupportedMode
KeyError exactly when the mode flag is neither "first" nor "list", and fails
with the KeyNotFound KeyError, whose payload reports the key, the module and
the file path, exactly when the mode is valid and no line of the log contains
both the key token and the module token as substrings. -/
theorem claim_C6_failure_modes (log_file : String) (lines : List String)
    (key module results : String) :
    (search_dfn_operation_log log_file lines key module results
        = .error .keyErrorUnsupported
       ↔ results ∉ (["first", "list"] : List String))
  ∧ (search_dfn_operation_log log_file lines key module results
        = .error (.keyErrorNotFound key module log_file)
       ↔ (results ∈ (["first", "list"] : List String)
           ∧ ∀ l ∈ lines, isCandidate key module l = false)) := by
  by_cases hmem : results ∈ (["first", "list"] : List String)
  · unfold search_dfn_operation_log
    rw [if_neg (not_not_intro hmem)]
    cases hs : scanLog key module (results == "first") lines with
    | error e =>
      have he : e = .indexError := scanLog_error _ _ _ lines e hs
      subst he
      constructor
      · constructor
        · intro h
          exfalso
          simp [Except.bind] at h
        · intro h
          exact absurd hmem h
      · constructor
        · intro h
          exfalso
          simp [Except.bind] at h
        · rintro ⟨-, hall⟩
          exfalso
          have hnil := (scanLog_ok_nil_iff key module (results == "first") lines).mpr hall
          rw [hs] at hnil
          cases hnil
    | ok vs =>
      cases vs with
      | nil =>
        constructor
        · constructor
          · intro h
            exfalso
            simp [Except.bind] at h
          · intro h
            exact absurd hmem h
        · constructor
          · intro _
            exact ⟨hmem, (scanLog_ok_nil_iff key module (results == "first") lines).mp hs⟩
          · intro _
            simp [Except.bind]
      | cons v vs2 =>
        constructor
        · constructor
          · intro h
            exfalso
            by_cases hf : (results == "first") = true <;> simp [Except.bind, hf] at h
          · intro h
            exact absurd hmem h
        · constructor
          · intro h
            exfalso
            by_cases hf : (results == "first") = true <;> simp [Except.bind, hf] at h
          · rintro ⟨-, hall⟩
            have hnil := (scanLog_ok_nil_iff key module (results == "first") lines).mpr hall
            rw [hs] at hnil
            simp at hnil
  · unfold search_dfn_operation_log
    rw [if_pos hmem]
    constructor
    · simp [hmem]
    · constructor
      · intro h
        exfalso
        simp at h
      · rintro ⟨hin, -⟩
        exact absurd hin hmem

/-- Claim C6 witness: the failure-mode theorem applied at an unsupported mode
flag on a concrete log. -/
theorem claim_C6_witness :
    search_dfn_operation_log "ops.log" [] "k" "m" "bogus"
      = .error .keyErrorUnsupported :=
  (claim_C6_failure_modes "ops.log" [] "k" "m" "bogus").1.mpr (by decide)

/-- Claim C7 (implicit): whenever a log line contains both the key token and
the module token as substrings but does not contain the literal separator
module-comma-key-comma, the split of line 183 yields a single element and the
access to element 1 raises an unguarded IndexError instead of returning a
value or raising KeyNotFound. -/
theorem claim_C7_index_error (log_file key module line results : String)
    (hres : results = "first" ∨ results = "list")
    (hcand : isCandidate key module line = true)
    (hsep : listSubstr (sepOf key module).toList line.toList = false) :
    search_dfn_operation_log log_file [line] key module results
      = .error .indexError := by
  have hnone : findOcc (sepOf key module).toList line.toList = none := by
    unfold listSubstr at hsep
    cases hg : findOcc (sepOf key module).toList line.toList with
    | none => rfl
    | some j => rw [hg] at hsep; simp at hsep
  have hev : extractValue (sepOf key module) line = none := by
    unfold extractValue
    rw [hnone]
    rfl
  have hmem : results ∈ (["first", "list"] : List String) := by
    rcases hres with h | h <;> simp [h]
  have hscan : scanLog key module (results == "first") [line] = .error .indexError := by
    rw [scanLog_cons, if_pos hcand, hev, Option.elim_none]
  unfold search_dfn_operation_log
  rw [if_neg (not_not_intro hmem), hscan]
  rfl

/-- Claim C7 witness: the line "km" contains both the key "k" and the module
"m" but not the separator "m, k, ", and the search raises IndexError. -/
theorem claim_C7_witness :
    search_dfn_operation_log "ops.log" ["km"] "k" "m" "first"
      = .error .indexError :=
  claim_C7_index_error "ops.log" "k" "m" "km" "first" (Or.inl rfl) (by decide) (by decide)

/- ------------------------------------------------------------------
Helper lemmas about the string primitives used by the file locators.
------------------------------------------------------------------ -/

lemma findOcc_cons (pat : List Char) (c : Char) (cs : List Char) :
    findOcc pat (c :: cs) =
      if startsWithL pat (c :: cs) then some 0 else (findOcc pat cs).map (· + 1) := rfl

lemma startsWithL_iff : ∀ p s : List Char, (startsWithL p s = true ↔ ∃ t, s = p ++ t)
  | [], s => by simp [startsWithL]
  | p :: ps, [] => by
    constructor
    · intro h
      exact absurd h Bool.false_ne_true
    · rintro ⟨t, ht⟩
      simp at ht
  | p :: ps, c :: cs => by
    simp only [startsWithL, Bool.and_eq_true, beq_iff_eq]
    constructor
    · rintro ⟨rfl, h⟩
      obtain ⟨t, rfl⟩ := (startsWithL_iff ps cs).mp h
      exact ⟨t, rfl⟩
    · rintro ⟨t, ht⟩
      rw [List.cons_append] at ht
      injection ht with h1 h2
      exact ⟨h1.symm, (startsWithL_iff ps cs).mpr ⟨t, h2⟩⟩

lemma endsWithL_iff (p s : List Char) : endsWithL p s = true ↔ ∃ t, s = t ++ p := by
  unfold endsWithL
  rw [startsWithL_iff]
  constructor
  · rintro ⟨t, ht⟩
    refine ⟨t.reverse, ?_⟩
    have h2 := congrArg List.reverse ht
    simpa [List.reverse_append] using h2
  · rintro ⟨t, rfl⟩
    exact ⟨t.reverse, by simp [List.reverse_append]⟩

lemma listSubstr_of_sfx : ∀ (t p s : List Char), s = t ++ p → listSubstr p s = true
  | [], p, s => by
    intro h
    rw [h]
    show listSubstr p p = true
    unfold listSubstr
    cases p with
    | nil => rfl
    | cons c cs =>
      rw [findOcc_cons, if_pos ((startsWithL_iff _ _).mpr ⟨[], by simp⟩)]
      rfl
  | c :: t2, p, s => by
    rintro rfl
    simp only [List.cons_append]
    unfold listSubstr
    rw [findOcc_cons]
    by_cases hsw : startsWithL p (c :: (t2 ++ p)) = true
    · rw [if_pos hsw]
      rfl
    · rw [if_neg hsw]
      have ih := listSubstr_of_sfx t2 p (t2 ++ p) rfl
      unfold listSubstr at ih
      cases hg : findOcc p (t2 ++ p) with
      | none => rw [hg] at ih; simp at ih
      | some j => rfl

lemma listSubstr_nil_of_ne (p : List Char) (hp : p ≠ []) : listSubstr p [] = false := by
  unfold listSubstr
  cases p with
  | nil => exact absurd rfl hp
  | cons c cs => rfl

lemma baseNameL_sfx (cs : List Char) : ∃ t, cs = t ++ baseNameL cs := by
  refine ⟨(cs.reverse.dropWhile (fun c => c != '/')).reverse, ?_⟩
  unfold baseNameL
  calc cs = cs.reverse.reverse := by simp
  _ = (cs.reverse.takeWhile (fun c => c != '/')
        ++ cs.reverse.dropWhile (fun c => c != '/')).reverse := by
      rw [List.takeWhile_append_dropWhile]
  _ = (cs.reverse.dropWhile (fun c => c != '/')).reverse
        ++ (cs.reverse.takeWhile (fun c => c != '/')).reverse := by
      rw [List.reverse_append]

lemma listLe_total : ∀ a b : List Char, listLe a b = true ∨ listLe b a = true
  | [], _ => Or.inl rfl
  | _ :: _, [] => Or.inr rfl
  | a :: as, b :: bs => by
    rcases lt_trichotomy a b with h | h | h
    · left
      unfold listLe
      rw [decide_eq_true h]
      rfl
    · subst h
      rcases listLe_total as bs with ih | ih
      · left
        unfold listLe
        rw [ih]
        simp
      · right
        unfold listLe
        rw [ih]
        simp
    · right
      unfold listLe
      rw [decide_eq_true h]
      rfl

lemma listLe_trans : ∀ a b c : List Char,
    listLe a b = true → listLe b c = true → listLe a c = true
  | [], _, _ => by
    intro _ _
    rfl
  | a :: as, [], _ => by
    intro h _
    simp [listLe] at h
  | a :: as, b :: bs, [] => by
    intro _ h
    simp [listLe] at h
  | a :: as, b :: bs, c :: cs => by
    intro h1 h2
    simp only [listLe, Bool.or_eq_true, Bool.and_eq_true, decide_eq_true_eq,
      beq_iff_eq] at h1 h2 ⊢
    rcases h1 with h1 | ⟨rfl, hr1⟩
    · rcases h2 with h2 | ⟨rfl, hr2⟩
      · exact Or.inl (lt_trans h1 h2)
      · exact Or.inl h1
    · rcases h2 with h2 | ⟨rfl, hr2⟩
      · exact Or.inl h2
      · exact Or.inr ⟨rfl, listLe_trans as bs cs hr1 hr2⟩

/- ------------------------------------------------------------------
Claims C9, C8, C10.
------------------------------------------------------------------ -/

/-- Claim C9: for every extension list, directory, prefix and suffix,
resolve_glob returns one single sequence holding, for each requested
extension, the paths matching the pattern built from that extension over the
immediate directory listing (no recursion, multiplicities preserved, so an
entry matched under two overlapping extensions appears twice), sorted in
string order; zero matches give the empty sequence and never an error. -/
theorem claim_C9_glob (es : List String) (directory : String) (listing : List String)
    (pfx sfx : String) :
    (resolve_glob (.listOf es) directory listing pfx sfx).Perm
        (List.flatten (es.map (fun e => glob_glob directory listing pfx sfx e)))
  ∧ List.Sorted StrLe (resolve_glob (.listOf es) directory listing pfx sfx)
  ∧ ((∀ e ∈ es, ∀ nm ∈ listing, globMatch pfx sfx e nm = false) →
       resolve_glob (.listOf es) directory listing pfx sfx = []) := by
  haveI htot : IsTotal String StrLe := ⟨fun a b => listLe_total a.toList b.toList⟩
  haveI htrans : IsTrans String StrLe :=
    ⟨fun a b c => listLe_trans a.toList b.toList c.toList⟩
  refine ⟨?_, ?_, ?_⟩
  · exact List.perm_insertionSort StrLe _
  · exact List.sorted_insertionSort StrLe _
  · intro hnone
    have hmapnil : es.map (fun e => glob_glob directory listing pfx sfx e)
        = es.map (fun _ => ([] : List String)) := by
      refine List.map_congr_left ?_
      intro e he
      unfold glob_glob
      rw [List.filter_eq_nil_iff.mpr (by intro nm hnm; simp [hnone e he nm hnm])]
      rfl
    show sortStrings (List.flatten (es.map (fun e => glob_glob directory listing pfx sfx e))) = []
    rw [hmapnil]
    have hfl : List.flatten (es.map (fun _ => ([] : List String))) = [] := by
      induction es with
      | nil => rfl
      | cons e es2 ih => simpa using ih
    rw [hfl]
    rfl

/-- Claim C9 witness: the theorem applied to a listing in which neither
requested extension matches anything, giving the empty sequence. -/
theorem claim_C9_witness :
    resolve_glob (.listOf ["NEF", "CR2"]) "d" ["x.txt"] "" "" = [] :=
  (claim_C9_glob ["NEF", "CR2"] "d" ["x.txt"] "" "").2.2 (by decide)

/-- Claim C8: getDfnstationConfigFile searches the directory for entries
matching the pattern star dfnstation star dot cfg; when the joined
conventional name dfnstation.cfg is among the candidates, the bare name
dfnstation.cfg is returned even if other candidates exist; otherwise the
first candidate in sorted order is returned; with no candidates the empty
string is returned and no error is raised; and the several-files warning is
emitted exactly when more than one candidate exists (it never changes the
result). -/
theorem claim_C8_config (directory : String) (listing : List String) :
    (pathJoin directory stdcfgfilename
        ∈ resolve_glob (.single "cfg") directory listing "" "dfnstation" →
       (getDfnstationConfigFile directory listing).result = stdcfgfilename)
  ∧ (resolve_glob (.single "cfg") directory listing "" "dfnstation" = [] →
       (getDfnstationConfigFile directory listing).result = "")
  ∧ (∀ c cs, resolve_glob (.single "cfg") directory listing "" "dfnstation" = c :: cs →
       pathJoin directory stdcfgfilename ∉ (c :: cs) →
       (getDfnstationConfigFile directory listing).result = c)
  ∧ ((getDfnstationConfigFile directory listing).warned = true ↔
       1 < (resolve_glob (.single "cfg") directory listing "" "dfnstation").length) := by
  refine ⟨?_, ?_, ?_, ?_⟩
  · intro hmem
    show (if pathJoin directory stdcfgfilename
            ∈ resolve_glob (.single "cfg") directory listing "" "dfnstation"
          then stdcfgfilename
          else match resolve_glob (.single "cfg") directory listing "" "dfnstation" with
               | f :: _ => f
               | [] => "") = stdcfgfilename
    rw [if_pos hmem]
  · intro hnil
    show (if pathJoin directory stdcfgfilename
            ∈ resolve_glob (.single "cfg") directory listing "" "dfnstation"
          then stdcfgfilename
          else match resolve_glob (.single "cfg") directory listing "" "dfnstation" with
               | f :: _ => f
               | [] => "") = ""
    rw [hnil, if_neg (List.not_mem_nil _)]
  · intro c cs hcons hnotmem
    show (if pathJoin directory stdcfgfilename
            ∈ resolve_glob (.single "cfg") directory listing "" "dfnstation"
          then stdcfgfilename
          else match resolve_glob (.single "cfg") directory listing "" "dfnstation" with
               | f :: _ => f
               | [] => "") = c
    rw [hcons, if_neg hnotmem]
  · show decide (1 < (resolve_glob (.single "cfg") directory listing "" "dfnstation").length)
        = true ↔ _
    exact decide_eq_true_iff

/-- Claim C8 witness: with both dfnstation.cfg and another matching file in
the directory, the conventional name wins. -/
theorem claim_C8_witness :
    (getDfnstationConfigFile "." ["dfnstation_backup.cfg", "dfnstation.cfg"]).result
      = "dfnstation.cfg" :=
  (claim_C8_config "." ["dfnstation_backup.cfg", "dfnstation.cfg"]).1 (by decide)

/-- Claim C10: find_log_file returns the first result, in the search order of
the tree, of the recursive search for files whose base name ends with
system_number + suffix + "." + extension, and fails with the LogFileNotFound
FileNotFoundError exactly when that search yields zero matching files.  The
hypothesis states the find invariant that every path of the tree textually
starts with basedir. -/
theorem claim_C10_find_log (basedir sfx ext system_number : String) (tree : List String)
    (hb : ∀ p ∈ tree, startsWithL basedir.toList p.toList = true) :
    (find_log_file basedir tree sfx ext system_number = .error .fileNotFoundError
       ↔ find_output tree (system_number ++ sfx ++ "." ++ ext) = [])
  ∧ (∀ m ms, find_output tree (system_number ++ sfx ++ "." ++ ext) = m :: ms →
       find_log_file basedir tree sfx ext system_number = .ok m) := by
  have hesne : (system_number ++ sfx ++ "." ++ ext).toList ≠ [] := by
    intro hnil
    have hlen0 : (system_number ++ sfx ++ "." ++ ext).length = 0 := by
      rw [show (system_number ++ sfx ++ "." ++ ext).length
            = (system_number ++ sfx ++ "." ++ ext).toList.length from rfl, hnil]
      rfl
    rw [String.length_append, String.length_append, String.length_append] at hlen0
    have hdot : (".").length = 1 := rfl
    omega
  have hfilter : (find_output tree (system_number ++ sfx ++ "." ++ ext) ++ [""]).filter
        (fun e => listSubstr (system_number ++ sfx ++ "." ++ ext).toList e.toList
                  && startsWithL basedir.toList e.toList)
      = find_output tree (system_number ++ sfx ++ "." ++ ext) := by
    rw [List.filter_append]
    have h2 : ([""] : List String).filter
        (fun e => listSubstr (system_number ++ sfx ++ "." ++ ext).toList e.toList
                  && startsWithL basedir.toList e.toList) = [] := by
      rw [List.filter_cons_of_neg]
      · rfl
      · intro hcon
        have hcon2 : (listSubstr (system_number ++ sfx ++ "." ++ ext).toList
            (("" : String).toList)
            && startsWithL basedir.toList (("" : String).toList)) = true := hcon
        rw [show ("" : String).toList = [] from rfl,
          listSubstr_nil_of_ne _ hesne] at hcon2
        simp at hcon2
    have h1 : (find_output tree (system_number ++ sfx ++ "." ++ ext)).filter
        (fun e => listSubstr (system_number ++ sfx ++ "." ++ ext).toList e.toList
                  && startsWithL basedir.toList e.toList)
      = find_output tree (system_number ++ sfx ++ "." ++ ext) := by
      rw [List.filter_eq_self]
      intro e he
      have hmemtree : e ∈ tree := (List.mem_filter.mp he).1
      have hpred : endsWithL (system_number ++ sfx ++ "." ++ ext).toList
          (baseNameL e.toList) = true := (List.mem_filter.mp he).2
      have hsw := hb e hmemtree
      have hsub : listSubstr (system_number ++ sfx ++ "." ++ ext).toList e.toList = true := by
        obtain ⟨t1, ht1⟩ := (endsWithL_iff _ _).mp hpred
        obtain ⟨t0, ht0⟩ := baseNameL_sfx e.toList
        refine listSubstr_of_sfx (t0 ++ t1) _ _ ?_
        rw [ht0, ht1, List.append_assoc]
      rw [hsub, hsw]
      rfl
    rw [h1, h2, List.append_nil]
  have hmain : find_log_file basedir tree sfx ext system_number
      = match find_output tree (system_number ++ sfx ++ "." ++ ext) with
        | [] => .error .fileNotFoundError
        | r :: _ => .ok r := by
    show (match (find_output tree (system_number ++ sfx ++ "." ++ ext) ++ [""]).filter
            (fun e => listSubstr (system_number ++ sfx ++ "." ++ ext).toList e.toList
                      && startsWithL basedir.toList e.toList) with
          | [] => (Except.error PyErr.fileNotFoundError : Except PyErr String)
          | r :: _ => Except.ok r) = _
    rw [hfilter]
  constructor
  · rw [hmain]
    cases hfo : find_output tree (system_number ++ sfx ++ "." ++ ext) with
    | nil => simp
    | cons m ms => simp
  · intro m ms hfo
    rw [hmain, hfo]

/-- Claim C10 witness: the theorem applied to a one-file tree containing the
documented example log file name. -/
theorem claim_C10_witness :
    find_log_file "/data" ["/data/2017-06-30_DFNSMALL15_log_interval.txt"]
      "_log_interval" "txt" "DFNSMALL15"
      = .ok "/data/2017-06-30_DFNSMALL15_log_interval.txt" :=
  (claim_C10_find_log "/data" "_log_interval" "txt" "DFNSMALL15"
      ["/data/2017-06-30_DFNSMALL15_log_interval.txt"] (by decide)).2
    "/data/2017-06-30_DFNSMALL15_log_interval.txt" [] (by decide)

end DfnUtils
